import Mathlib

/-!
Shallow embedding of the cv-prototypical-network repository.

Source files modelled:
- src/loss_function.py : euclidean_dist, prototypical_loss,
  gaussian_prototypical_loss, gaussian_dist
- src/mini_imagenet_dataset.py : MiniImageNet.__init__ (manifest parsing and
  label assignment)

Tensors are modelled as a shape (list of dimension sizes) together with a flat
row-major data list, mirroring torch's dense layout.  torch operations used by
the source (view/reshape, squeeze, gather, max along a dimension, elementwise
eq with broadcasting, mean) are translated on this representation.  Machine
floats are modelled as real numbers.  The `raise Exception` in euclidean_dist
is modelled with `Except Unit` (an uncategorized error carrying no data).
-/

set_option linter.unusedVariables false

/-- Row-major flat index of a multi-index `idx` into a tensor of shape `s`
(the stride of the leading dimension is the product of the remaining sizes). -/
def flatIndex : List ℕ → List ℕ → ℕ
  | _ :: s, i :: idx => i * s.prod + flatIndex s idx
  | _, _ => 0

/-- All multi-indices of a shape, enumerated in row-major order (the order in
which torch stores the corresponding entries). -/
def allIdx : List ℕ → List (List ℕ)
  | [] => [[]]
  | n :: s => (List.range n).flatMap fun i => (allIdx s).map (i :: ·)

/-- A dense tensor: a shape and a flat row-major data list. -/
structure Tens (α : Type) where
  shape : List ℕ
  data : List α

/-- torch's `t.size(i)`: the i-th dimension size. -/
def Tens.size {α : Type} (t : Tens α) (i : ℕ) : ℕ := t.shape.getD i 0

/-- Entry of a tensor at a multi-index (0 outside the stored range; all source
accesses are in range under the stated shape hypotheses). -/
def Tens.entry {α : Type} [Zero α] (t : Tens α) (idx : List ℕ) : α :=
  t.data.getD (flatIndex t.shape idx) 0

/-- Build the tensor of a given shape whose entries are given by `f`;
the data list enumerates `f` over all multi-indices in row-major order. -/
def tensorOf {α : Type} (s : List ℕ) (f : List ℕ → α) : Tens α :=
  ⟨s, (allIdx s).map f⟩

/-- torch negation `-t` (elementwise on the data). -/
def Tens.neg (t : Tens ℝ) : Tens ℝ :=
  ⟨t.shape, t.data.map fun a => -a⟩

/-- torch `t.view(a, b, -1)`: same data, new shape with the last dimension
inferred from the number of elements. -/
def view3 (t : Tens ℝ) (a b : ℕ) : Tens ℝ :=
  ⟨[a, b, t.data.length / (a * b)], t.data⟩

/-- torch `t.view(-1)`: flatten to one dimension. -/
def view1 (t : Tens ℝ) : Tens ℝ :=
  ⟨[t.data.length], t.data⟩

/-- torch `t.squeeze()`: drop every dimension of size 1 (data unchanged). -/
def Tens.squeeze {α : Type} (t : Tens α) : Tens α :=
  ⟨t.shape.filter fun n => n ≠ 1, t.data⟩

/-- torch `t.mean()`: sum of all entries divided by the number of elements. -/
noncomputable def Tens.mean (t : Tens ℝ) : ℝ :=
  t.data.sum / (t.shape.prod : ℝ)

/-- Row-wise log-softmax of a 2-D tensor along dim 1, as computed by
`F.log_softmax(t, dim=1)`: entry (i,j) becomes t[i,j] - log(sum_k exp t[i,k]). -/
noncomputable def logSoftmax2 (t : Tens ℝ) : Tens ℝ :=
  tensorOf [t.size 0, t.size 1] fun idx =>
    match idx with
    | [i, j] =>
        t.entry [i, j] -
          Real.log (((List.range (t.size 1)).map fun k => Real.exp (t.entry [i, k])).sum)
    | _ => 0

/-- torch `t.gather(2, ind)` for a 3-D tensor and 3-D index tensor:
out[a][b][c] = t[a][b][ind[a][b][c]]. -/
def gather3 (t : Tens ℝ) (ind : Tens ℕ) : Tens ℝ :=
  tensorOf ind.shape fun idx =>
    match idx with
    | [a, b, c] => t.entry [a, b, ind.entry [a, b, c]]
    | _ => 0

/-- Largest value of a nonempty list (0 for the empty list, never used there). -/
noncomputable def maxVal : List ℝ → ℝ
  | [] => 0
  | [a] => a
  | a :: b :: r => max a (maxVal (b :: r))

/-- Index of the first maximal element of a list; torch's `max(dim)` and the
spec's arg-max lowest-index tie rule. -/
noncomputable def firstArgmax : List ℝ → ℕ
  | [] => 0
  | [_] => 0
  | a :: b :: r => if a < maxVal (b :: r) then firstArgmax (b :: r) + 1 else 0

/-- Index component of torch `t.max(2)` on a 3-D tensor: shape is the first two
dimensions, entry (a,b) the arg-max over the last dimension. -/
noncomputable def maxIdx3 (t : Tens ℝ) : Tens ℕ :=
  tensorOf (t.shape.take 2) fun idx =>
    match idx with
    | [a, b] => firstArgmax ((List.range (t.size 2)).map fun c => t.entry [a, b, c])
    | _ => 0

/-- The target index tensor of the loss functions:
`torch.arange(0, n_classes).view(n_classes, 1, 1).expand(n_classes, n_query, 1)`,
i.e. entry (a, b, 0) = a. -/
def targetInds (n_classes n_query : ℕ) : Tens ℕ :=
  tensorOf [n_classes, n_query, 1] fun idx => idx.headD 0

/-- Left-pad a shape with size-1 dimensions to length `k` (torch's alignment of
shapes of different rank before broadcasting). -/
def padShape (k : ℕ) (s : List ℕ) : List ℕ :=
  List.replicate (k - s.length) 1 ++ s

/-- torch's broadcast of two shapes: align on the right, each result dimension
is the max of the two aligned sizes (they agree or one is 1 at every use site
in the source). -/
def bShape (s₁ s₂ : List ℕ) : List ℕ :=
  List.zipWith max (padShape (max s₁.length s₂.length) s₁) (padShape (max s₁.length s₂.length) s₂)

/-- Read tensor `t` at a multi-index `idx` of the broadcast shape `s`:
the extra leading dimensions are dropped and every size-1 dimension of `t`
reads index 0 (torch broadcasting semantics). -/
def bEntry {α : Type} [Zero α] (t : Tens α) (s idx : List ℕ) : α :=
  t.entry (List.zipWith (fun n i => if n = 1 then 0 else i) t.shape (idx.drop (s.length - t.shape.length)))

/-- torch `a.eq(b).float()` on integer tensors, with broadcasting:
1.0 where the broadcast entries agree, 0.0 elsewhere. -/
def eqFloat (a b : Tens ℕ) : Tens ℝ :=
  tensorOf (bShape a.shape b.shape) fun idx =>
    if bEntry a (bShape a.shape b.shape) idx = bEntry b (bShape a.shape b.shape) idx then 1 else 0

/-- Lines 54-66 of loss_function.py (and the identical lines 73-83 of
gaussian_prototypical_loss): from a (n_classes*n_query) x n_classes distance
matrix compute log_p_y, the loss and the accuracy.  The `.to(device)` moves are
identities in this model. -/
noncomputable def lossAccFromDists (device : Unit) (n_classes n_query : ℕ) (dists : Tens ℝ) : ℝ × ℝ :=
  let log_p_y := view3 (logSoftmax2 dists.neg) n_classes n_query
  let target_inds := targetInds n_classes n_query
  let loss_val := -(Tens.mean (view1 (Tens.squeeze (gather3 log_p_y target_inds))))
  let y_hat := maxIdx3 log_p_y
  let acc_val := Tens.mean (eqFloat y_hat target_inds.squeeze)
  (loss_val, acc_val)

/-- euclidean_dist (loss_function.py lines 24-39): pairwise squared euclidean
distances via unsqueeze/expand/pow/sum, after checking that the feature
dimensions agree; `raise Exception` is the uncategorized `Except.error ()`. -/
noncomputable def euclidean_dist (x y : Tens ℝ) : Except Unit (Tens ℝ) :=
  if x.size 1 = y.size 1 then
    .ok (tensorOf [x.size 0, y.size 0] fun idx =>
      match idx with
      | [i, j] => ((List.range (x.size 1)).map fun k => (x.entry [i, k] - y.entry [j, k]) ^ 2).sum
      | _ => 0)
  else
    .error ()

/-- prototypical_loss (loss_function.py lines 42-66); a dimension mismatch in
euclidean_dist propagates to the caller. -/
noncomputable def prototypical_loss (device : Unit) (n_classes n_query : ℕ)
    (prototypes query_samples : Tens ℝ) : Except Unit (ℝ × ℝ) :=
  (euclidean_dist query_samples prototypes).map fun dists =>
    lossAccFromDists device n_classes n_query dists

/-- The mode flag of gaussian_dist; the source compares a string argument
against "radial" and "diagonal", the only two values it gives a meaning to. -/
inductive GMode
  | radial
  | diagonal

/-- Number of leading feature columns of x kept by gaussian_dist:
all but the last under "radial" (`x[:, :x.size(1) - 1]`), the first half under
"diagonal" (`torch.split(x, int(x.size(1)/2), dim=1)` keeps the first chunk). -/
def encWidth (dx : ℕ) : GMode → ℕ
  | .radial => dx - 1
  | .diagonal => dx / 2

/-- The truncated query tensor x_encoded: the first e columns of x. -/
def truncateCols (x : Tens ℝ) (e : ℕ) : Tens ℝ :=
  tensorOf [x.size 0, e] fun idx => x.entry idx

/-- gaussian_dist (loss_function.py lines 95-113): for every class i the loop
writes `dists[:, i] = torch.norm((x_encoded - y[i]) * torch.sqrt(sigmas[i]), dim=1)`,
so entry (p, i) is the L2 norm over the kept columns. -/
noncomputable def gaussian_dist (x y sigmas : Tens ℝ) (mode : GMode) : Tens ℝ :=
  tensorOf [x.size 0, y.size 0] fun idx =>
    match idx with
    | [p, i] =>
        Real.sqrt (((List.range (encWidth (x.size 1) mode)).map fun k =>
          (((truncateCols x (encWidth (x.size 1) mode)).entry [p, k] - y.entry [i, k]) *
            Real.sqrt (sigmas.entry [i, k])) ^ 2).sum)
    | _ => 0

/-- gaussian_prototypical_loss (loss_function.py lines 68-93).  The call
`gaussian_dist(query_samples, prototypes, support_inv_sigmas)` uses the
Python default mode="radial".  The `criterion` argument is accepted (any type)
and, like in the source's live code path, never used. -/
noncomputable def gaussian_prototypical_loss {α : Type} (device : Unit) (n_classes n_query : ℕ)
    (prototypes query_samples support_inv_sigmas : Tens ℝ) (criterion : α) : ℝ × ℝ :=
  lossAccFromDists device n_classes n_query
    (gaussian_dist query_samples prototypes support_inv_sigmas GMode.radial)

/-- Squared L2 distance of query row i of x and prototype row j of y over d
feature coordinates: the spec's "sum over dimensions of (X[i,k] − Y[j,k])²". -/
noncomputable def sqDist (x y : Tens ℝ) (d i j : ℕ) : ℝ :=
  ((List.range d).map fun k => (x.entry [i, k] - y.entry [j, k]) ^ 2).sum

/-- The spec's per-query log-probability of class j for query i: log-softmax
over the class axis of the negated squared distances. -/
noncomputable def logProb (x y : Tens ℝ) (d C i j : ℕ) : ℝ :=
  -(sqDist x y d i j) - Real.log (((List.range C).map fun k => Real.exp (-(sqDist x y d i k))).sum)

/-- Log-softmax value at (i, j) of the negation of an abstract distance matrix
(used to state facts about lossAccFromDists for any distance matrix). -/
noncomputable def rowLogScore (dists : Tens ℝ) (C i j : ℕ) : ℝ :=
  -(dists.entry [i, j]) -
    Real.log (((List.range C).map fun k => Real.exp (-(dists.entry [i, k]))).sum)

/-- Python `l.split(',')` on the characters of a string: split at every comma,
no merging, no quoting (the manifest format supports none). -/
def splitCommaAux : List Char → List Char → List (List Char)
  | [], acc => [acc.reverse]
  | c :: cs, acc =>
      if c = ',' then acc.reverse :: splitCommaAux cs [] else splitCommaAux cs (c :: acc)

/-- Python `l.split(',')`. -/
def splitComma (s : String) : List String :=
  (splitCommaAux s.data []).map String.mk

/-- ASCII whitespace recognised by Python's `str.strip()` (the manifest lines
only ever carry trailing newlines). -/
def isSpaceChar (c : Char) : Bool :=
  c == ' ' || c == '\t' || c == '\n' || c == '\r'

/-- Python `l.strip()`: drop leading and trailing whitespace. -/
def stripLine (s : String) : String :=
  String.mk (((s.data.dropWhile isSpaceChar).reverse.dropWhile isSpaceChar).reverse)

/-- The state built by MiniImageNet.__init__: parallel path and label lists and
the ordered list of distinct raw class ids seen so far. -/
structure MiniImageNet where
  data : List String
  label : List ℤ
  wnids : List String

/-- The wnid (raw class identifier) field of a manifest row:
`name, wnid = l.split(',')` takes the second field. -/
def wnidOf (l : String) : String :=
  (splitComma l).getD 1 ""

/-- The full image path of a manifest row: `osp.join(root + 'data/', name)`
concatenates because the left part ends with a slash. -/
def pathOf (root l : String) : String :=
  root ++ "data/" ++ ((splitComma l).getD 0 "")

/-- One iteration of the manifest loop of MiniImageNet.__init__ (lines 22-29):
split the line, join the path, append the wnid and bump the counter if the
wnid is unseen, then append the path and the current counter value as this
row's label. -/
def miniInitStep (root : String) (st : MiniImageNet × ℤ) (l : String) : MiniImageNet × ℤ :=
  if wnidOf l ∈ st.1.wnids then
    ({ st.1 with data := st.1.data ++ [pathOf root l], label := st.1.label ++ [st.2] }, st.2)
  else
    ({ data := st.1.data ++ [pathOf root l], label := st.1.label ++ [st.2 + 1],
       wnids := st.1.wnids ++ [wnidOf l] }, st.2 + 1)

/-- MiniImageNet.__init__ (mini_imagenet_dataset.py lines 10-32) applied to the
lines read from the manifest file: strip each line, discard the header, then
run the loop starting from empty lists and label counter -1.  (Python unpacking
`name, wnid = l.split(',')` requires exactly two fields per row; theorems carry
that as a hypothesis.) -/
def miniImageNetInit (root : String) (lines : List String) : MiniImageNet :=
  (((lines.map stripLine).drop 1).foldl (miniInitStep root) (⟨[], [], []⟩, -1)).1

/-- A root directory for concrete dataset instances. -/
def rootEx : String := "root/"

/-- The spec's example manifest: a header row and three rows with raw class
identifiers a, b, a. -/
def manifestEx : List String := ["filename,label", "f1,a", "f2,b", "f3,a"]

/-- The prototype matrix [[0,0],[10,10]] of the spec's testable property for
prototypical_loss (section 8). -/
noncomputable def protoEx : Tens ℝ := ⟨[2, 2], [0, 0, 10, 10]⟩

/-- The query matrix [[0,0],[10,10]] of the same testable property
(each query identical to its class prototype). -/
noncomputable def queryEx : Tens ℝ := ⟨[2, 2], [0, 0, 10, 10]⟩

/-- A 1x1 zero matrix used as a minimal concrete instance. -/
noncomputable def zeroEx : Tens ℝ := ⟨[1, 1], [0]⟩

/-- The distance matrix euclidean_dist produces on queryEx and protoEx. -/
noncomputable def distsEx : Tens ℝ := ⟨[2, 2], [0, 200, 200, 0]⟩

/-! ### Infrastructure lemmas about the tensor model -/

theorem length_allIdx (s : List ℕ) : (allIdx s).length = s.prod := by
  induction s with
  | nil => rfl
  | cons n s ih =>
      show ((List.range n).flatMap fun i => (allIdx s).map (i :: ·)).length = n * s.prod
      rw [List.length_flatMap]
      rw [List.map_congr_left
        (fun a _ => by simp [ih] : ∀ a ∈ List.range n,
          (List.length ∘ fun i => (allIdx s).map (i :: ·)) a = s.prod)]
      rw [List.map_const']
      simp [List.sum_replicate, nsmul_eq_mul, Nat.mul_comm]

theorem flatIndex_lt {idx s : List ℕ} (h : List.Forall₂ (· < ·) idx s) :
    flatIndex s idx < s.prod := by
  induction h with
  | nil => simp [flatIndex]
  | @cons i n idx s hin htail ih =>
      show i * s.prod + flatIndex s idx < n * s.prod
      have h1 : i + 1 ≤ n := hin
      calc i * s.prod + flatIndex s idx < i * s.prod + s.prod := by omega
        _ = (i + 1) * s.prod := by ring
        _ ≤ n * s.prod := Nat.mul_le_mul_right _ h1

theorem getElem?_flatMap_uniform {β : Type} (g : ℕ → List β) (L : ℕ)
    (hL : ∀ j, (g j).length = L) :
    ∀ (n i r : ℕ), i < n → r < L →
      ((List.range n).flatMap g)[i * L + r]? = (g i)[r]? := by
  intro n
  induction n with
  | zero => intro i r hi; omega
  | succ n ih =>
      intro i r hi hr
      rw [List.range_succ, List.flatMap_append]
      have hlen : ((List.range n).flatMap g).length = n * L := by
        rw [List.length_flatMap]
        rw [List.map_congr_left
          (fun a _ => by simp [hL a] : ∀ a ∈ List.range n, (List.length ∘ g) a = L)]
        rw [List.map_const']
        simp [List.sum_replicate, nsmul_eq_mul, Nat.mul_comm]
      rcases Nat.lt_or_ge i n with hin | hin
      · rw [List.getElem?_append_left (by rw [hlen]; calc i * L + r < i * L + L := by omega
          _ = (i + 1) * L := by ring
          _ ≤ n * L := Nat.mul_le_mul_right _ hin)]
        exact ih i r hin hr
      · have hieq : i = n := by omega
        subst hieq
        rw [List.getElem?_append_right (by rw [hlen]; omega)]
        rw [hlen]
        have h2 : i * L + r - i * L = r := by omega
        rw [h2]
        simp [List.flatMap_cons]

theorem allIdx_getElem? {idx s : List ℕ} (h : List.Forall₂ (· < ·) idx s) :
    (allIdx s)[flatIndex s idx]? = some idx := by
  induction h with
  | nil => rfl
  | @cons i n idx s hin htail ih =>
      show ((List.range n).flatMap fun j => (allIdx s).map (j :: ·))[i * s.prod + flatIndex s idx]? = _
      rw [getElem?_flatMap_uniform _ s.prod
        (fun j => by rw [List.length_map, length_allIdx]) n i (flatIndex s idx) hin
        (flatIndex_lt htail)]
      rw [List.getElem?_map, ih]
      rfl

theorem tensorOf_data_getD {α : Type} [Zero α] {idx s : List ℕ} (f : List ℕ → α)
    (h : List.Forall₂ (· < ·) idx s) :
    (tensorOf s f).data.getD (flatIndex s idx) 0 = f idx := by
  show ((allIdx s).map f).getD (flatIndex s idx) 0 = f idx
  rw [List.getD_eq_getElem?_getD, List.getElem?_map, allIdx_getElem? h]
  rfl

theorem tensorOf_entry {α : Type} [Zero α] {idx s : List ℕ} (f : List ℕ → α)
    (h : List.Forall₂ (· < ·) idx s) :
    (tensorOf s f).entry idx = f idx :=
  tensorOf_data_getD f h

theorem tensorOf_data {α : Type} (s : List ℕ) (f : List ℕ → α) :
    (tensorOf s f).data = (allIdx s).map f := rfl

theorem tensorOf_shape {α : Type} (s : List ℕ) (f : List ℕ → α) :
    (tensorOf s f).shape = s := rfl

theorem mem_allIdx {idx s : List ℕ} : idx ∈ allIdx s ↔ List.Forall₂ (· < ·) idx s := by
  induction s generalizing idx with
  | nil =>
      constructor
      · intro h
        have : idx = [] := by simpa [allIdx] using h
        subst this
        exact List.Forall₂.nil
      · intro h
        cases h
        exact List.mem_singleton.mpr rfl
  | cons n s ih =>
      show idx ∈ (List.range n).flatMap (fun i => (allIdx s).map (i :: ·)) ↔ _
      rw [List.mem_flatMap]
      constructor
      · rintro ⟨i, hi, hmem⟩
        rcases List.mem_map.mp hmem with ⟨idx2, hidx2, rfl⟩
        exact List.Forall₂.cons (List.mem_range.mp hi) (ih.mp hidx2)
      · intro h
        cases h with
        | cons h1 h2 =>
            exact ⟨_, List.mem_range.mpr h1, List.mem_map.mpr ⟨_, ih.mpr h2, rfl⟩⟩

theorem sum_map_flatMap {β : Type} (l : List ℕ) (g : ℕ → List β) (f : β → ℝ) :
    ((l.flatMap g).map f).sum = (l.map fun a => ((g a).map f).sum).sum := by
  induction l with
  | nil => rfl
  | cons a l ih => simp [List.flatMap_cons, ih]

theorem sum_map_range_mul (m n : ℕ) (f : ℕ → ℝ) :
    ((List.range (m * n)).map f).sum =
      ((List.range m).map fun a => ((List.range n).map fun b => f (a * n + b)).sum).sum := by
  induction m with
  | zero => simp
  | succ m ih =>
      have h1 : (m + 1) * n = m * n + n := by ring
      rw [h1, List.range_add, List.map_append, List.sum_append, ih, List.range_succ,
        List.map_append, List.sum_append, List.map_map]
      simp only [List.map_cons, List.map_nil, List.sum_cons, List.sum_nil, add_zero]
      exact congrArg (_ + ·) (congrArg List.sum (List.map_congr_left fun b _ => rfl))

theorem getD_map_neg (l : List ℝ) (n : ℕ) :
    (l.map fun a => -a).getD n 0 = -(l.getD n 0) := by
  rcases h : l[n]? with _ | a
  · simp [List.getD_eq_getElem?_getD, h]
  · simp [List.getD_eq_getElem?_getD, h]

theorem neg_entry (t : Tens ℝ) (idx : List ℕ) : t.neg.entry idx = -(t.entry idx) := by
  show (t.data.map fun a => -a).getD (flatIndex t.shape idx) 0 = -(t.data.getD (flatIndex t.shape idx) 0)
  exact getD_map_neg _ _

theorem mul_add_div_self (a b q : ℕ) (hq : 0 < q) (hb : b < q) : (a * q + b) / q = a := by
  rw [Nat.mul_comm, Nat.add_comm, Nat.add_mul_div_left _ _ hq, Nat.div_eq_of_lt hb]
  omega

theorem forall2_pair {i n j m : ℕ} (hi : i < n) (hj : j < m) :
    List.Forall₂ (· < ·) [i, j] [n, m] :=
  List.Forall₂.cons hi (List.Forall₂.cons hj List.Forall₂.nil)

theorem forall2_triple {i n j m k p : ℕ} (hi : i < n) (hj : j < m) (hk : k < p) :
    List.Forall₂ (· < ·) [i, j, k] [n, m, p] :=
  List.Forall₂.cons hi (List.Forall₂.cons hj (List.Forall₂.cons hk List.Forall₂.nil))

theorem tensorOf_congr {α : Type} {s : List ℕ} {f g : List ℕ → α}
    (h : ∀ idx ∈ allIdx s, f idx = g idx) : tensorOf s f = tensorOf s g := by
  unfold tensorOf
  rw [List.map_congr_left h]

/-! ### Claims about euclidean_dist -/

/-- C4: for vector sets X and Y of a common feature dimension d,
euclidean_dist returns the n x m matrix with entry (i,j) the squared L2 norm
of X[i] - Y[j]; the entry is 0 whenever the two rows agree. -/
theorem euclidean_dist_entry_sq_l2 (x y : Tens ℝ) (h : x.size 1 = y.size 1) :
    ∃ t, euclidean_dist x y = .ok t ∧ t.shape = [x.size 0, y.size 0] ∧
      (∀ i j, i < x.size 0 → j < y.size 0 →
        t.entry [i, j] =
          ((List.range (x.size 1)).map fun k => (x.entry [i, k] - y.entry [j, k]) ^ 2).sum) ∧
      (∀ i j, i < x.size 0 → j < y.size 0 →
        (∀ k, k < x.size 1 → x.entry [i, k] = y.entry [j, k]) → t.entry [i, j] = 0) := by
  rw [euclidean_dist, if_pos h]
  refine ⟨_, rfl, rfl, ?_, ?_⟩
  · intro i j hi hj
    rw [tensorOf_entry _ (forall2_pair hi hj)]
  · intro i j hi hj hrow
    rw [tensorOf_entry _ (forall2_pair hi hj)]
    apply List.sum_eq_zero
    intro a ha
    rcases List.mem_map.mp ha with ⟨k, hk, rfl⟩
    rw [hrow k (List.mem_range.mp hk)]
    ring

/-- Witness for C4 at X = [[1,2],[3,4]], Y = [[1,2]]: the (0,0) entry is 0
(identical rows) and the (1,0) entry is (3-1)^2 + (4-2)^2 = 8. -/
theorem euclidean_dist_entry_sq_l2_witness :
    ∃ t, euclidean_dist (⟨[2, 2], [1, 2, 3, 4]⟩ : Tens ℝ) (⟨[1, 2], [1, 2]⟩ : Tens ℝ) = .ok t ∧
      t.entry [0, 0] = 0 ∧ t.entry [1, 0] = 8 := by
  obtain ⟨t, hok, hshape, hentry, hzero⟩ :=
    euclidean_dist_entry_sq_l2 (⟨[2, 2], [1, 2, 3, 4]⟩ : Tens ℝ) (⟨[1, 2], [1, 2]⟩ : Tens ℝ) rfl
  refine ⟨t, hok, ?_, ?_⟩
  · apply hzero 0 0 (by decide) (by decide)
    intro k hk
    have hk2 : k < 2 := hk
    interval_cases k
    · norm_num [Tens.entry, flatIndex]
    · norm_num [Tens.entry, flatIndex]
  · rw [hentry 1 0 (by decide) (by decide)]
    norm_num [Tens.entry, Tens.size, flatIndex, List.range_succ]

/-- C5: euclidean_dist fails, with the uncategorized error, exactly when the
feature dimensions of X and Y differ (the model is a pure function, so the
error case has no side effect). -/
theorem euclidean_dist_error_iff_dim_mismatch :
    ∀ x y : Tens ℝ, euclidean_dist x y = .error () ↔ x.size 1 ≠ y.size 1 := by
  intro x y
  by_cases h : x.size 1 = y.size 1
  · simp [euclidean_dist, h]
  · simp [euclidean_dist, h]

/-! ### Claims about gaussian_dist and gaussian_prototypical_loss -/

theorem euclid_tensor_entry (x y : Tens ℝ) (p i : ℕ) (hp : p < x.size 0) (hi : i < y.size 0) :
    (tensorOf [x.size 0, y.size 0] fun idx =>
      match idx with
      | [i2, j] => ((List.range (x.size 1)).map fun k => (x.entry [i2, k] - y.entry [j, k]) ^ 2).sum
      | _ => 0).entry [p, i] =
      ((List.range (x.size 1)).map fun k => (x.entry [p, k] - y.entry [i, k]) ^ 2).sum := by
  rw [tensorOf_entry _ (forall2_pair hp hi)]

theorem gaussian_dist_entry (x y sigmas : Tens ℝ) (mode : GMode) (p i : ℕ)
    (hp : p < x.size 0) (hi : i < y.size 0) :
    (gaussian_dist x y sigmas mode).entry [p, i] =
      Real.sqrt (((List.range (encWidth (x.size 1) mode)).map fun k =>
        (((truncateCols x (encWidth (x.size 1) mode)).entry [p, k] - y.entry [i, k]) *
          Real.sqrt (sigmas.entry [i, k])) ^ 2).sum) := by
  rw [gaussian_dist, tensorOf_entry _ (forall2_pair hp hi)]

/-- C6: the (p,i) entry of gaussian_dist is the L2 norm of the elementwise
product of the square roots of class i's inverse variances with the difference
between the truncated query row p and prototype row i; "radial" keeps the
first d_x - 1 columns of X, "diagonal" the first floor(d_x/2). -/
theorem gaussian_dist_entry_weighted_norm (x y sigmas : Tens ℝ) (p i : ℕ)
    (hp : p < x.size 0) (hi : i < y.size 0) :
    (gaussian_dist x y sigmas GMode.radial).entry [p, i] =
      Real.sqrt (((List.range (x.size 1 - 1)).map fun k =>
        (Real.sqrt (sigmas.entry [i, k]) * (x.entry [p, k] - y.entry [i, k])) ^ 2).sum) ∧
    (gaussian_dist x y sigmas GMode.diagonal).entry [p, i] =
      Real.sqrt (((List.range (x.size 1 / 2)).map fun k =>
        (Real.sqrt (sigmas.entry [i, k]) * (x.entry [p, k] - y.entry [i, k])) ^ 2).sum) := by
  constructor
  · rw [gaussian_dist_entry x y sigmas GMode.radial p i hp hi]
    have he : encWidth (x.size 1) GMode.radial = x.size 1 - 1 := rfl
    rw [he]
    congr 1
    apply congrArg List.sum
    apply List.map_congr_left
    intro k hk
    rw [truncateCols, tensorOf_entry _ (forall2_pair hp (List.mem_range.mp hk))]
    ring
  · rw [gaussian_dist_entry x y sigmas GMode.diagonal p i hp hi]
    have he : encWidth (x.size 1) GMode.diagonal = x.size 1 / 2 := rfl
    rw [he]
    congr 1
    apply congrArg List.sum
    apply List.map_congr_left
    intro k hk
    rw [truncateCols, tensorOf_entry _ (forall2_pair hp (List.mem_range.mp hk))]
    ring

/-- Witness for C6 at X = [[3,0]], Y = [[1]], sigmas = [[4]] in radial mode:
the kept width is 1 and the entry is sqrt((sqrt(4)*(3-1))^2) = 4. -/
theorem gaussian_dist_entry_weighted_norm_witness :
    (gaussian_dist (⟨[1, 2], [3, 0]⟩ : Tens ℝ) (⟨[1, 1], [1]⟩ : Tens ℝ)
        (⟨[1, 1], [4]⟩ : Tens ℝ) GMode.radial).entry [0, 0] = 4 := by
  obtain ⟨h1, h2⟩ := gaussian_dist_entry_weighted_norm (⟨[1, 2], [3, 0]⟩ : Tens ℝ)
    (⟨[1, 1], [1]⟩ : Tens ℝ) (⟨[1, 1], [4]⟩ : Tens ℝ) 0 0 (by decide) (by decide)
  rw [h1]
  have hl : List.range ((⟨[1, 2], [3, 0]⟩ : Tens ℝ).size 1 - 1) = [0] := by decide
  rw [hl]
  simp only [List.map_cons, List.map_nil, List.sum_cons, List.sum_nil, add_zero]
  have e1 : (⟨[1, 1], [4]⟩ : Tens ℝ).entry [0, 0] = 4 := rfl
  have e2 : (⟨[1, 2], [3, 0]⟩ : Tens ℝ).entry [0, 0] = 3 := rfl
  have e3 : (⟨[1, 1], [1]⟩ : Tens ℝ).entry [0, 0] = 1 := rfl
  rw [e1, e2, e3]
  have h4 : Real.sqrt 4 = 2 := by
    rw [show (4:ℝ) = 2 ^ 2 by norm_num]
    exact Real.sqrt_sq (by norm_num)
  rw [h4, show ((2:ℝ) * (3 - 1)) = 4 by norm_num]
  exact Real.sqrt_sq (by norm_num)

/-- C7 (amended): with all inverse variances equal to 1, gaussian_dist equals
the entrywise square root of euclidean_dist applied to the truncated query
vectors and the prototypes (not euclidean_dist itself, which is the squared
distance). -/
theorem gaussian_dist_unit_sigma_sqrt_euclidean (x y sigmas : Tens ℝ) (mode : GMode)
    (hd : y.size 1 = encWidth (x.size 1) mode)
    (hs : ∀ i k, i < y.size 0 → k < encWidth (x.size 1) mode → sigmas.entry [i, k] = 1) :
    ∃ t, euclidean_dist (truncateCols x (encWidth (x.size 1) mode)) y = .ok t ∧
      ∀ p i, p < x.size 0 → i < y.size 0 →
        (gaussian_dist x y sigmas mode).entry [p, i] = Real.sqrt (t.entry [p, i]) := by
  have hsz : (truncateCols x (encWidth (x.size 1) mode)).size 1 = y.size 1 := by
    rw [hd]
    rfl
  rw [euclidean_dist, if_pos hsz]
  refine ⟨_, rfl, ?_⟩
  intro p i hp hi
  have hp2 : p < (truncateCols x (encWidth (x.size 1) mode)).size 0 := hp
  rw [euclid_tensor_entry _ y p i hp2 hi]
  rw [gaussian_dist_entry x y sigmas mode p i hp hi]
  have hw : (truncateCols x (encWidth (x.size 1) mode)).size 1 = encWidth (x.size 1) mode := rfl
  rw [hw]
  congr 1
  apply congrArg List.sum
  apply List.map_congr_left
  intro k hk
  rw [hs i k hi (List.mem_range.mp hk), Real.sqrt_one, mul_one]

/-- Witness for C7's amended statement at X = [[3,0]], Y = [[1]],
sigmas = [[1]] in radial mode. -/
theorem gaussian_dist_unit_sigma_sqrt_euclidean_witness :
    ∃ t, euclidean_dist (truncateCols (⟨[1, 2], [3, 0]⟩ : Tens ℝ) 1) (⟨[1, 1], [1]⟩ : Tens ℝ) = .ok t ∧
      (gaussian_dist (⟨[1, 2], [3, 0]⟩ : Tens ℝ) (⟨[1, 1], [1]⟩ : Tens ℝ)
        (⟨[1, 1], [1]⟩ : Tens ℝ) GMode.radial).entry [0, 0] = Real.sqrt (t.entry [0, 0]) := by
  obtain ⟨t, hok, hent⟩ :=
    gaussian_dist_unit_sigma_sqrt_euclidean (⟨[1, 2], [3, 0]⟩ : Tens ℝ) (⟨[1, 1], [1]⟩ : Tens ℝ)
      (⟨[1, 1], [1]⟩ : Tens ℝ) GMode.radial rfl
      (by
        intro i k hi hk
        have hi0 : i < 1 := hi
        have hk0 : k < 1 := hk
        have hi1 : i = 0 := by omega
        have hk1 : k = 0 := by omega
        subst hi1
        subst hk1
        norm_num [Tens.entry, flatIndex])
  exact ⟨t, hok, hent 0 0 (by decide) (by decide)⟩

/-- Counterexample to C7 as stated: at X = [[2,9]], Y = [[0]], sigmas = [[1]]
(radial mode, truncated X = [[2]]) the gaussian distance entry is 2 while the
euclidean distance entry on the truncated vectors is 4: the two functions
differ, being related by a square root instead. -/
theorem gaussian_dist_unit_sigma_counterexample :
    (gaussian_dist (⟨[1, 2], [2, 9]⟩ : Tens ℝ) (⟨[1, 1], [0]⟩ : Tens ℝ)
        (⟨[1, 1], [1]⟩ : Tens ℝ) GMode.radial).entry [0, 0] = 2 ∧
    (euclidean_dist (truncateCols (⟨[1, 2], [2, 9]⟩ : Tens ℝ) 1) (⟨[1, 1], [0]⟩ : Tens ℝ)).map
        (fun t => t.entry [0, 0]) = .ok 4 ∧
    (2 : ℝ) ≠ 4 := by
  refine ⟨?_, ?_, by norm_num⟩
  · rw [gaussian_dist_entry (⟨[1, 2], [2, 9]⟩ : Tens ℝ) (⟨[1, 1], [0]⟩ : Tens ℝ)
      (⟨[1, 1], [1]⟩ : Tens ℝ) GMode.radial 0 0 (by decide) (by decide)]
    have hl : List.range (encWidth ((⟨[1, 2], [2, 9]⟩ : Tens ℝ).size 1) GMode.radial) = [0] := by
      decide
    rw [hl]
    simp only [List.map_cons, List.map_nil, List.sum_cons, List.sum_nil, add_zero]
    have e1 : (truncateCols (⟨[1, 2], [2, 9]⟩ : Tens ℝ)
        (encWidth ((⟨[1, 2], [2, 9]⟩ : Tens ℝ).size 1) GMode.radial)).entry [0, 0] = 2 := rfl
    have e2 : (⟨[1, 1], [0]⟩ : Tens ℝ).entry [0, 0] = 0 := rfl
    have e3 : (⟨[1, 1], [1]⟩ : Tens ℝ).entry [0, 0] = 1 := rfl
    rw [e1, e2, e3, Real.sqrt_one, mul_one]
    rw [show ((2:ℝ) - 0) = 2 by norm_num]
    exact Real.sqrt_sq (by norm_num)
  · rw [euclidean_dist, if_pos (by decide :
      (truncateCols (⟨[1, 2], [2, 9]⟩ : Tens ℝ) 1).size 1 = (⟨[1, 1], [0]⟩ : Tens ℝ).size 1)]
    show Except.ok _ = Except.ok _
    congr 1
    simp only [euclid_tensor_entry (truncateCols (⟨[1, 2], [2, 9]⟩ : Tens ℝ) 1)
      (⟨[1, 1], [0]⟩ : Tens ℝ) 0 0 (by decide) (by decide)]
    have hl2 : List.range ((truncateCols (⟨[1, 2], [2, 9]⟩ : Tens ℝ) 1).size 1) = [0] := by decide
    rw [hl2]
    simp only [List.map_cons, List.map_nil, List.sum_cons, List.sum_nil, add_zero]
    have e4 : (truncateCols (⟨[1, 2], [2, 9]⟩ : Tens ℝ) 1).entry [0, 0] = 2 := rfl
    have e5 : (⟨[1, 1], [0]⟩ : Tens ℝ).entry [0, 0] = 0 := rfl
    rw [e4, e5]
    norm_num

/-- C8: the criterion argument of gaussian_prototypical_loss has no effect on
the returned (loss, accuracy) pair, whatever its type or value. -/
theorem gaussian_prototypical_loss_criterion_irrelevant :
    ∀ {α β : Type} (device : Unit) (n_classes n_query : ℕ)
      (prototypes query_samples support_inv_sigmas : Tens ℝ) (c₁ : α) (c₂ : β),
      gaussian_prototypical_loss device n_classes n_query prototypes query_samples
          support_inv_sigmas c₁ =
        gaussian_prototypical_loss device n_classes n_query prototypes query_samples
          support_inv_sigmas c₂ :=
  fun _ _ _ _ _ _ _ _ => rfl

theorem forall2_pair_inv {idx : List ℕ} {n m : ℕ} (h : List.Forall₂ (· < ·) idx [n, m]) :
    ∃ i j, idx = [i, j] ∧ i < n ∧ j < m := by
  cases h with
  | cons h1 h2 =>
      cases h2 with
      | cons h3 h4 =>
          cases h4
          exact ⟨_, _, rfl, h1, h3⟩

theorem forall2_triple_inv {idx : List ℕ} {n m p : ℕ} (h : List.Forall₂ (· < ·) idx [n, m, p]) :
    ∃ a b c, idx = [a, b, c] ∧ a < n ∧ b < m ∧ c < p := by
  cases h with
  | cons h1 h2 =>
      cases h2 with
      | cons h3 h4 =>
          cases h4 with
          | cons h5 h6 =>
              cases h6
              exact ⟨_, _, _, rfl, h1, h3, h5⟩

/-- C10: gaussian_prototypical_loss always truncates in "radial" mode (it
passes no mode, taking the source's default), so its result is unchanged when
the last feature column of the query matrix is altered arbitrarily: only the
first d_x - 1 columns can influence the output, and no caller can reach the
"diagonal" truncation through it. -/
theorem gaussian_prototypical_loss_ignores_last_column
    {α β : Type} (device : Unit) (n_classes n_query N dx : ℕ)
    (prototypes sigmas X X2 : Tens ℝ) (c : α) (c2 : β)
    (hX : X.shape = [N, dx]) (hX2 : X2.shape = [N, dx])
    (hagree : ∀ p k, p < N → k < dx - 1 → X.entry [p, k] = X2.entry [p, k]) :
    gaussian_prototypical_loss device n_classes n_query prototypes X sigmas c =
      gaussian_prototypical_loss device n_classes n_query prototypes X2 sigmas c2 := by
  have hs0 : X.size 0 = N := by rw [Tens.size, hX]; rfl
  have hs1 : X.size 1 = dx := by rw [Tens.size, hX]; rfl
  have hs0b : X2.size 0 = N := by rw [Tens.size, hX2]; rfl
  have hs1b : X2.size 1 = dx := by rw [Tens.size, hX2]; rfl
  unfold gaussian_prototypical_loss
  congr 1
  unfold gaussian_dist
  rw [hs0, hs1, hs0b, hs1b]
  apply tensorOf_congr
  intro idx hmem
  obtain ⟨p, i, rfl, hp, hi⟩ := forall2_pair_inv (mem_allIdx.mp hmem)
  refine congrArg Real.sqrt (congrArg List.sum (List.map_congr_left ?_))
  intro k hk
  have hk2 : k < dx - 1 := List.mem_range.mp hk
  have hpX : p < X.size 0 := by rw [hs0]; exact hp
  have hpX2 : p < X2.size 0 := by rw [hs0b]; exact hp
  rw [truncateCols, tensorOf_entry _
    (forall2_pair hpX (show k < encWidth dx GMode.radial from hk2))]
  rw [truncateCols, tensorOf_entry _
    (forall2_pair hpX2 (show k < encWidth dx GMode.radial from hk2))]
  rw [hagree p k hp hk2]

/-! ### Claims about the dataset adapter -/

theorem toFinset_append_singleton (l : List String) (a : String) :
    (l ++ [a]).toFinset = insert a l.toFinset := by
  simp [List.toFinset_append]
  exact Finset.union_comm _ _

theorem miniFold_invariant (root : String) (q : List String) :
    (q.foldl (miniInitStep root) (⟨[], [], []⟩, -1)).1.data = q.map (pathOf root) ∧
    (q.foldl (miniInitStep root) (⟨[], [], []⟩, -1)).1.label =
      (List.range q.length).map (fun i =>
        (((q.take (i + 1)).map wnidOf).toFinset.card : ℤ) - 1) ∧
    (q.foldl (miniInitStep root) (⟨[], [], []⟩, -1)).2 =
      ((q.map wnidOf).toFinset.card : ℤ) - 1 ∧
    (q.foldl (miniInitStep root) (⟨[], [], []⟩, -1)).1.wnids.Nodup ∧
    (∀ w, w ∈ (q.foldl (miniInitStep root) (⟨[], [], []⟩, -1)).1.wnids ↔ w ∈ q.map wnidOf) := by
  induction q using List.reverseRecOn with
  | nil => simp
  | append_singleton q l ih =>
      obtain ⟨hdata, hlabel, hlb, hnodup, hmem⟩ := ih
      rw [List.foldl_append]
      simp only [List.foldl_cons, List.foldl_nil]
      have hlen : (q ++ [l]).length = q.length + 1 := by simp
      have htake_lt : ∀ i, i < q.length → (q ++ [l]).take (i + 1) = q.take (i + 1) := by
        intro i hi
        exact List.take_append_of_le_length (by omega)
      have htake_all : (q ++ [l]).take (q.length + 1) = q ++ [l] := by
        apply List.take_of_length_le
        simp
      have hmap_all : ((q ++ [l]).map wnidOf).toFinset = insert (wnidOf l) (q.map wnidOf).toFinset := by
        rw [List.map_append]
        exact toFinset_append_singleton _ _
      have hcommon : (List.range (q.length + 1)).map (fun i =>
          ((((q ++ [l]).take (i + 1)).map wnidOf).toFinset.card : ℤ) - 1) =
          ((List.range q.length).map (fun i =>
            (((q.take (i + 1)).map wnidOf).toFinset.card : ℤ) - 1)) ++
          [(((q ++ [l]).map wnidOf).toFinset.card : ℤ) - 1] := by
        rw [List.range_succ, List.map_append]
        congr 1
        · apply List.map_congr_left
          intro i hi
          rw [htake_lt i (List.mem_range.mp hi)]
        · simp only [List.map_cons, List.map_nil]
          rw [htake_all]
      by_cases hw : wnidOf l ∈ (q.foldl (miniInitStep root) (⟨[], [], []⟩, -1)).1.wnids
      · have hwq : wnidOf l ∈ q.map wnidOf := (hmem _).mp hw
        have hins : insert (wnidOf l) (q.map wnidOf).toFinset = (q.map wnidOf).toFinset :=
          Finset.insert_eq_self.mpr (List.mem_toFinset.mpr hwq)
        rw [miniInitStep, if_pos hw]
        refine ⟨?_, ?_, ?_, ?_, ?_⟩
        · simp only [hdata, List.map_append, List.map_cons, List.map_nil]
        · rw [hlen, hcommon, hlabel, hmap_all, hins, hlb]
        · rw [hlb, hmap_all, hins]
        · exact hnodup
        · intro w
          rw [List.map_append]
          simp only [List.mem_append, List.mem_cons, List.map_cons, List.map_nil,
            List.mem_singleton, List.not_mem_nil, or_false]
          constructor
          · intro h
            exact Or.inl ((hmem w).mp h)
          · intro h
            rcases h with h | h
            · exact (hmem w).mpr h
            · subst h
              exact hw
      · have hwq : wnidOf l ∉ q.map wnidOf := fun h => hw ((hmem _).mpr h)
        have hcard : (insert (wnidOf l) (q.map wnidOf).toFinset).card =
            (q.map wnidOf).toFinset.card + 1 :=
          Finset.card_insert_of_not_mem (fun h => hwq (List.mem_toFinset.mp h))
        rw [miniInitStep, if_neg hw]
        refine ⟨?_, ?_, ?_, ?_, ?_⟩
        · simp only [hdata, List.map_append, List.map_cons, List.map_nil]
        · rw [hlen, hcommon, hlabel, hmap_all, hcard, hlb]
          have hz : (((((List.map wnidOf q).toFinset.card : ℕ) + 1 : ℕ) : ℤ) - 1) =
              (((List.map wnidOf q).toFinset.card : ℕ) : ℤ) - 1 + 1 := by
            push_cast
            ring
          rw [hz]
        · rw [hlb, hmap_all, hcard]
          push_cast
          ring
        · rw [List.nodup_append]
          refine ⟨hnodup, List.nodup_singleton _, ?_⟩
          intro a ha hb
          rw [List.mem_singleton] at hb
          subst hb
          exact hw ha
        · intro w
          rw [List.map_append]
          simp only [List.mem_append, List.mem_cons, List.map_cons, List.map_nil,
            List.mem_singleton, List.not_mem_nil, or_false]
          constructor
          · intro h
            rcases h with h | h
            · exact Or.inl ((hmem w).mp h)
            · exact Or.inr h
          · intro h
            rcases h with h | h
            · exact Or.inl ((hmem w).mpr h)
            · exact Or.inr h

/-- Witness for C10 on concrete 1x2 query matrices [[5,7]] and [[5,9]] that
agree on their first column but not on their last. -/
theorem gaussian_prototypical_loss_ignores_last_column_witness :
    gaussian_prototypical_loss () 1 1 (⟨[1, 1], [0]⟩ : Tens ℝ) (⟨[1, 2], [5, 7]⟩ : Tens ℝ)
        (⟨[1, 1], [1]⟩ : Tens ℝ) (0 : ℕ) =
      gaussian_prototypical_loss () 1 1 (⟨[1, 1], [0]⟩ : Tens ℝ) (⟨[1, 2], [5, 9]⟩ : Tens ℝ)
        (⟨[1, 1], [1]⟩ : Tens ℝ) true :=
  gaussian_prototypical_loss_ignores_last_column () 1 1 1 2
    (⟨[1, 1], [0]⟩ : Tens ℝ) (⟨[1, 1], [1]⟩ : Tens ℝ)
    (⟨[1, 2], [5, 7]⟩ : Tens ℝ) (⟨[1, 2], [5, 9]⟩ : Tens ℝ) (0 : ℕ) true rfl rfl
    (by
      intro p k hp hk
      have hp1 : p = 0 := by omega
      have hk1 : k = 0 := by omega
      subst hp1
      subst hk1
      rfl)

/-- C9 (amended): dataset construction strips each line, discards the header,
assigns row i the label (number of distinct raw class identifiers among rows
0..i) - 1 -- i.e. the running new-class counter, which equals the first-seen
index of the row's own identifier only when its class is the most recently
introduced one -- and the number of entries equals the number of manifest rows
after the header.  (The hypothesis records that Python's tuple unpacking
requires exactly two comma-separated fields per row.) -/
theorem miniImageNet_label_running_count (root : String) (lines : List String)
    (h2 : ∀ l ∈ (lines.map stripLine).drop 1, (splitComma l).length = 2) :
    (miniImageNetInit root lines).data.length = ((lines.map stripLine).drop 1).length ∧
    (miniImageNetInit root lines).label =
      (List.range ((lines.map stripLine).drop 1).length).map fun i =>
        (((((lines.map stripLine).drop 1).take (i + 1)).map wnidOf).toFinset.card : ℤ) - 1 := by
  obtain ⟨hdata, hlabel, _, _, _⟩ := miniFold_invariant root ((lines.map stripLine).drop 1)
  constructor
  · rw [miniImageNetInit, hdata, List.length_map]
  · rw [miniImageNetInit, hlabel]

/-- Witness for C9's amended statement on the spec's 3-row manifest with
classes a, b, a: three entries with labels [0, 1, 1]. -/
theorem miniImageNet_label_running_count_witness :
    (miniImageNetInit rootEx manifestEx).data.length = 3 ∧
    (miniImageNetInit rootEx manifestEx).label = [0, 1, 1] := by
  obtain ⟨h1, h2⟩ := miniImageNet_label_running_count rootEx manifestEx (by decide)
  constructor
  · rw [h1]
    decide
  · rw [h2]
    decide

/-- Counterexample to C9 as stated: on the manifest with classes a, b, a the
code's labels are [0, 1, 1] (the third row reuses the running counter, which
stayed at 1), not the claimed first-seen labels [0, 1, 0]. -/
theorem miniImageNet_label_counterexample :
    (miniImageNetInit rootEx manifestEx).label = [0, 1, 1] ∧
    ([0, 1, 1] : List ℤ) ≠ [0, 1, 0] := by
  constructor
  · decide
  · decide

/-! ### The loss/accuracy pipeline on an abstract distance matrix -/

theorem row_lt {a C b Q : ℕ} (ha : a < C) (hb : b < Q) : a * Q + b < C * Q := by
  calc a * Q + b < a * Q + Q := by omega
    _ = (a + 1) * Q := by ring
    _ ≤ C * Q := Nat.mul_le_mul_right _ ha

theorem sum_map_allIdx_cons (n : ℕ) (s : List ℕ) (f : List ℕ → ℝ) :
    ((allIdx (n :: s)).map f).sum =
      ((List.range n).map fun i => ((allIdx s).map fun idx => f (i :: idx)).sum).sum := by
  show (((List.range n).flatMap fun i => (allIdx s).map (i :: ·)).map f).sum = _
  rw [sum_map_flatMap]
  apply congrArg List.sum
  apply List.map_congr_left
  intro i _
  rw [List.map_map]
  rfl

theorem allIdx_one : allIdx [1] = [[0]] := by decide

theorem view3_logSoftmax_entry (C Q : ℕ) (hC : 1 ≤ C) (hQ : 1 ≤ Q) (dists : Tens ℝ)
    (hshape : dists.shape = [C * Q, C]) {a b c : ℕ} (ha : a < C) (hb : b < Q) (hc : c < C) :
    (view3 (logSoftmax2 dists.neg) C Q).entry [a, b, c] = rowLogScore dists C (a * Q + b) c := by
  have hd0 : dists.neg.shape = dists.shape := rfl
  have h0 : dists.neg.size 0 = C * Q := by rw [Tens.size, hd0, hshape]; rfl
  have h1 : dists.neg.size 1 = C := by rw [Tens.size, hd0, hshape]; rfl
  have hlen : (logSoftmax2 dists.neg).data.length = C * Q * C := by
    show ((allIdx [dists.neg.size 0, dists.neg.size 1]).map _).length = _
    rw [List.length_map, length_allIdx, h0, h1]
    simp
  have hm : (logSoftmax2 dists.neg).data.length / (C * Q) = C := by
    rw [hlen]
    exact Nat.mul_div_cancel_left _ (Nat.mul_pos hC hQ)
  show (logSoftmax2 dists.neg).data.getD
    (flatIndex [C, Q, (logSoftmax2 dists.neg).data.length / (C * Q)] [a, b, c]) 0 = _
  have hflat : flatIndex [C, Q, (logSoftmax2 dists.neg).data.length / (C * Q)] [a, b, c] =
      flatIndex [dists.neg.size 0, dists.neg.size 1] [a * Q + b, c] := by
    rw [hm, h0, h1]
    simp [flatIndex]
    ring
  rw [hflat]
  have hval : List.Forall₂ (· < ·) [a * Q + b, c] [dists.neg.size 0, dists.neg.size 1] := by
    rw [h0, h1]
    exact forall2_pair (row_lt ha hb) hc
  rw [logSoftmax2]
  rw [tensorOf_data_getD _ hval]
  show dists.neg.entry [a * Q + b, c] -
      Real.log (((List.range (dists.neg.size 1)).map fun k =>
        Real.exp (dists.neg.entry [a * Q + b, k])).sum) = _
  rw [h1, neg_entry, rowLogScore]
  congr 2
  apply congrArg List.sum
  apply List.map_congr_left
  intro k _
  rw [neg_entry]

theorem targetInds_entry (C Q : ℕ) {a b : ℕ} (ha : a < C) (hb : b < Q) :
    (targetInds C Q).entry [a, b, 0] = a := by
  rw [targetInds, tensorOf_entry _ (forall2_triple ha hb Nat.one_pos)]
  rfl

theorem lossAcc_fst (C Q : ℕ) (hC : 1 ≤ C) (hQ : 1 ≤ Q) (dists : Tens ℝ)
    (hshape : dists.shape = [C * Q, C]) :
    (lossAccFromDists () C Q dists).1 =
      -(((List.range (C * Q)).map fun i => rowLogScore dists C i (i / Q)).sum) / (C * Q : ℝ) := by
  have hdata : (gather3 (view3 (logSoftmax2 dists.neg) C Q) (targetInds C Q)).data =
      (allIdx [C, Q, 1]).map fun idx =>
        rowLogScore dists C ((idx.headD 0) * Q + idx.getD 1 0) (idx.headD 0) := by
    show (allIdx [C, Q, 1]).map _ = _
    apply List.map_congr_left
    intro idx hmem
    obtain ⟨a, b, c, rfl, ha, hb, hc⟩ := forall2_triple_inv (mem_allIdx.mp hmem)
    have hc0 : c = 0 := by omega
    subst hc0
    show (view3 (logSoftmax2 dists.neg) C Q).entry [a, b, (targetInds C Q).entry [a, b, 0]] = _
    rw [targetInds_entry C Q ha hb]
    exact view3_logSoftmax_entry C Q hC hQ dists hshape ha hb ha
  have hlen : (gather3 (view3 (logSoftmax2 dists.neg) C Q) (targetInds C Q)).data.length =
      C * Q := by
    show ((allIdx [C, Q, 1]).map _).length = _
    rw [List.length_map, length_allIdx]
    simp
  have hsum : ((allIdx [C, Q, 1]).map fun idx =>
      rowLogScore dists C ((idx.headD 0) * Q + idx.getD 1 0) (idx.headD 0)).sum =
      ((List.range (C * Q)).map fun i => rowLogScore dists C i (i / Q)).sum := by
    rw [sum_map_allIdx_cons, sum_map_range_mul C Q (fun i => rowLogScore dists C i (i / Q))]
    apply congrArg List.sum
    apply List.map_congr_left
    intro a hmema
    rw [sum_map_allIdx_cons]
    apply congrArg List.sum
    apply List.map_congr_left
    intro b hmemb
    rw [allIdx_one]
    simp only [List.map_cons, List.map_nil, List.sum_cons, List.sum_nil, add_zero]
    show rowLogScore dists C (a * Q + b) a = rowLogScore dists C (a * Q + b) ((a * Q + b) / Q)
    rw [mul_add_div_self a b Q (by omega) (List.mem_range.mp hmemb)]
  show -(Tens.mean (view1 (Tens.squeeze
    (gather3 (view3 (logSoftmax2 dists.neg) C Q) (targetInds C Q))))) = _
  rw [Tens.mean]
  show -((gather3 (view3 (logSoftmax2 dists.neg) C Q) (targetInds C Q)).data.sum /
    (((gather3 (view3 (logSoftmax2 dists.neg) C Q) (targetInds C Q)).data.length * 1 : ℕ) : ℝ)) = _
  rw [hdata, hsum, Nat.mul_one, List.length_map, length_allIdx]
  have hp : List.prod [C, Q, 1] = C * Q := by simp
  rw [hp]
  push_cast
  ring

theorem firstArgmax_single (x : ℝ) : firstArgmax [x] = 0 := rfl

theorem targetInds_data_getD (C Q : ℕ) {i j : ℕ} (hi : i < C) (hj : j < Q) :
    (targetInds C Q).data.getD (i * Q + j) 0 = i := by
  have hflat : i * Q + j = flatIndex [C, Q, 1] [i, j, 0] := by
    simp [flatIndex]
  rw [hflat, targetInds, tensorOf_data_getD _ (forall2_triple hi hj Nat.one_pos)]
  rfl

theorem maxIdx3_entry (C Q : ℕ) (hC : 1 ≤ C) (hQ : 1 ≤ Q) (dists : Tens ℝ)
    (hshape : dists.shape = [C * Q, C]) {a b : ℕ} (ha : a < C) (hb : b < Q) :
    (maxIdx3 (view3 (logSoftmax2 dists.neg) C Q)).entry [a, b] =
      firstArgmax ((List.range C).map fun j => rowLogScore dists C (a * Q + b) j) := by
  have hd0 : dists.neg.shape = dists.shape := rfl
  have h0 : dists.neg.size 0 = C * Q := by rw [Tens.size, hd0, hshape]; rfl
  have h1 : dists.neg.size 1 = C := by rw [Tens.size, hd0, hshape]; rfl
  have hlen : (logSoftmax2 dists.neg).data.length = C * Q * C := by
    show ((allIdx [dists.neg.size 0, dists.neg.size 1]).map _).length = _
    rw [List.length_map, length_allIdx, h0, h1]
    simp
  have hm : (logSoftmax2 dists.neg).data.length / (C * Q) = C := by
    rw [hlen]
    exact Nat.mul_div_cancel_left _ (Nat.mul_pos hC hQ)
  have hval : List.Forall₂ (· < ·) [a, b]
      ((view3 (logSoftmax2 dists.neg) C Q).shape.take 2) :=
    forall2_pair ha hb
  rw [maxIdx3, tensorOf_entry _ hval]
  show firstArgmax ((List.range ((view3 (logSoftmax2 dists.neg) C Q).size 2)).map fun c =>
    (view3 (logSoftmax2 dists.neg) C Q).entry [a, b, c]) = _
  have hsz2 : (view3 (logSoftmax2 dists.neg) C Q).size 2 = C := hm
  rw [hsz2]
  apply congrArg firstArgmax
  apply List.map_congr_left
  intro c hc
  exact view3_logSoftmax_entry C Q hC hQ dists hshape ha hb (List.mem_range.mp hc)

theorem sum_allIdx_pair_range (C Q : ℕ) (hQ : 1 ≤ Q) (H : ℕ → ℝ) :
    ((allIdx [C, Q]).map fun idx => H ((idx.headD 0) * Q + idx.getD 1 0)).sum =
      ((List.range (C * Q)).map fun i => H i).sum := by
  rw [sum_map_allIdx_cons, sum_map_range_mul C Q H]
  apply congrArg List.sum
  apply List.map_congr_left
  intro a hmema
  rw [sum_map_allIdx_cons]
  apply congrArg List.sum
  apply List.map_congr_left
  intro b hmemb
  show ((allIdx []).map _).sum = _
  simp [allIdx]

set_option maxHeartbeats 2000000 in
theorem lossAcc_snd (C Q : ℕ) (hC : 1 ≤ C) (hQ : 1 ≤ Q) (hQC : 2 ≤ Q ∨ C = 1) (dists : Tens ℝ)
    (hshape : dists.shape = [C * Q, C]) :
    (lossAccFromDists () C Q dists).2 =
      (((List.range (C * Q)).map fun i =>
        if firstArgmax ((List.range C).map fun j => rowLogScore dists C i j) = i / Q
        then (1 : ℝ) else 0).sum) / (C * Q : ℝ) := by
  by_cases hC1 : C = 1
  · subst hC1
    have hQ0 : Q ≠ 0 := by omega
    have hsingle : ∀ i, firstArgmax ((List.range 1).map fun j => rowLogScore dists 1 i j) = 0 := by
      intro i
      have hr1 : List.range 1 = [0] := by decide
      rw [hr1, List.map_cons, List.map_nil, firstArgmax_single]
    have hRHS : (((List.range (1 * Q)).map fun i =>
        if firstArgmax ((List.range 1).map fun j => rowLogScore dists 1 i j) = i / Q
        then (1 : ℝ) else 0).sum) / (((1 : ℕ) : ℝ) * (Q : ℝ)) = 1 := by
      have hone : ∀ i ∈ List.range (1 * Q),
          (if firstArgmax ((List.range 1).map fun j => rowLogScore dists 1 i j) = i / Q
            then (1 : ℝ) else 0) = (fun _ => (1 : ℝ)) i := by
        intro i hi
        have hiq : i < Q := by
          have := List.mem_range.mp hi
          omega
        rw [hsingle i, Nat.div_eq_of_lt hiq]
        simp
      rw [List.map_congr_left hone, List.map_const', List.sum_replicate, List.length_range]
      have hq : (Q : ℝ) ≠ 0 := Nat.cast_ne_zero.mpr hQ0
      field_simp
    rw [hRHS]
    have hyent : ∀ b, b < Q →
        (maxIdx3 (view3 (logSoftmax2 dists.neg) 1 Q)).entry [0, b] = 0 := by
      intro b hb
      rw [maxIdx3_entry 1 Q hC hQ dists hshape Nat.one_pos hb]
      exact hsingle _
    by_cases hQ1 : Q = 1
    · subst hQ1
      have hys : (maxIdx3 (view3 (logSoftmax2 dists.neg) 1 1)).shape = [1, 1] := rfl
      have hts : (targetInds 1 1).squeeze.shape = ([] : List ℕ) := by
        show [1, 1, 1].filter (fun n => n ≠ 1) = []
        decide
      have hbs : bShape [1, 1] [] = [1, 1] := by decide
      show Tens.mean (eqFloat (maxIdx3 (view3 (logSoftmax2 dists.neg) 1 1))
        (targetInds 1 1).squeeze) = 1
      rw [eqFloat]
      simp only [hys, hts, hbs]
      rw [Tens.mean, tensorOf_data, tensorOf_shape]
      have ha11 : allIdx [1, 1] = [[0, 0]] := by decide
      rw [ha11, List.map_cons, List.map_nil]
      have hbe1 : bEntry (maxIdx3 (view3 (logSoftmax2 dists.neg) 1 1)) [1, 1] [0, 0] = 0 := by
        rw [bEntry]
        simp only [hys, List.length_cons, List.length_nil, Nat.sub_self, List.drop]
        simp only [List.zipWith_cons_cons, List.zipWith_nil_right, if_pos rfl]
        exact hyent 0 Nat.one_pos
      have hbe2 : bEntry ((targetInds 1 1).squeeze) [1, 1] [0, 0] = 0 := by
        rw [bEntry]
        simp only [hts, List.length_cons, List.length_nil, List.length_nil]
        show (targetInds 1 1).squeeze.data.getD
          (flatIndex (targetInds 1 1).squeeze.shape (List.zipWith _ [] ([0, 0].drop (2 - 0)))) 0 = 0
        simp only [hts, List.zipWith_nil_left]
        show (targetInds 1 1).data.getD (flatIndex [] []) 0 = 0
        have h0 : flatIndex [] [] = 0 * 1 + 0 := rfl
        rw [h0]
        exact targetInds_data_getD 1 1 Nat.one_pos Nat.one_pos
      rw [hbe1, hbe2]
      norm_num
    · have hys : (maxIdx3 (view3 (logSoftmax2 dists.neg) 1 Q)).shape = [1, Q] := rfl
      have hts : (targetInds 1 Q).squeeze.shape = [Q] := by
        show [1, Q, 1].filter (fun n => n ≠ 1) = [Q]
        simp [List.filter_cons, hQ1]
      have hbs : bShape [1, Q] [Q] = [1, Q] := by
        simp [bShape, padShape]
      show Tens.mean (eqFloat (maxIdx3 (view3 (logSoftmax2 dists.neg) 1 Q))
        (targetInds 1 Q).squeeze) = 1
      rw [eqFloat]
      simp only [hys, hts, hbs]
      rw [Tens.mean, tensorOf_data, tensorOf_shape]
      have hone : ∀ idx ∈ allIdx [1, Q],
          (if bEntry (maxIdx3 (view3 (logSoftmax2 dists.neg) 1 Q)) [1, Q] idx =
            bEntry ((targetInds 1 Q).squeeze) [1, Q] idx then (1 : ℝ) else 0) =
          (fun _ => (1 : ℝ)) idx := by
        intro idx hmem
        obtain ⟨i, j, rfl, hi, hj⟩ := forall2_pair_inv (mem_allIdx.mp hmem)
        have hi0 : i = 0 := by omega
        subst hi0
        have hbe1 : bEntry (maxIdx3 (view3 (logSoftmax2 dists.neg) 1 Q)) [1, Q] [0, j] = 0 := by
          rw [bEntry]
          simp only [hys, List.length_cons, List.length_nil, Nat.sub_self, List.drop]
          simp only [List.zipWith_cons_cons, List.zipWith_nil_right, if_pos rfl, if_neg hQ1]
          exact hyent j hj
        have hbe2 : bEntry ((targetInds 1 Q).squeeze) [1, Q] [0, j] = 0 := by
          rw [bEntry]
          simp only [hts, List.length_cons, List.length_nil]
          show (targetInds 1 Q).squeeze.data.getD
            (flatIndex (targetInds 1 Q).squeeze.shape
              (List.zipWith _ [Q] ([0, j].drop (2 - 1)))) 0 = 0
          simp only [hts, List.drop, List.zipWith_cons_cons, List.zipWith_nil_right, if_neg hQ1]
          show (targetInds 1 Q).data.getD (flatIndex [Q] [j]) 0 = 0
          have hflat : flatIndex [Q] [j] = 0 * Q + j := by
            simp [flatIndex]
          rw [hflat]
          exact targetInds_data_getD 1 Q Nat.one_pos hj
        rw [hbe1, hbe2]
        rfl
      rw [List.map_congr_left hone, List.map_const', List.sum_replicate, length_allIdx]
      have hq : (Q : ℝ) ≠ 0 := Nat.cast_ne_zero.mpr hQ0
      have hpq : List.prod [1, Q] = Q := by simp
      rw [hpq]
      field_simp
  · have hQ2 : 2 ≤ Q := by
      rcases hQC with h | h
      · exact h
      · exact absurd h hC1
    have hQ1 : Q ≠ 1 := by omega
    have hys : (maxIdx3 (view3 (logSoftmax2 dists.neg) C Q)).shape = [C, Q] := rfl
    have hts : (targetInds C Q).squeeze.shape = [C, Q] := by
      show [C, Q, 1].filter (fun n => n ≠ 1) = [C, Q]
      simp [List.filter_cons, hC1, hQ1]
    have hbs : bShape [C, Q] [C, Q] = [C, Q] := by
      simp [bShape, padShape]
    show Tens.mean (eqFloat (maxIdx3 (view3 (logSoftmax2 dists.neg) C Q))
      (targetInds C Q).squeeze) = _
    rw [eqFloat]
    simp only [hys, hts, hbs]
    rw [Tens.mean, tensorOf_data, tensorOf_shape]
    have hmap : (allIdx [C, Q]).map (fun idx =>
        if bEntry (maxIdx3 (view3 (logSoftmax2 dists.neg) C Q)) [C, Q] idx =
          bEntry ((targetInds C Q).squeeze) [C, Q] idx then (1 : ℝ) else 0) =
        (allIdx [C, Q]).map (fun idx =>
          if firstArgmax ((List.range C).map fun j =>
              rowLogScore dists C ((idx.headD 0) * Q + idx.getD 1 0) j) = idx.headD 0
          then (1 : ℝ) else 0) := by
      apply List.map_congr_left
      intro idx hmem
      obtain ⟨i, j, rfl, hi, hj⟩ := forall2_pair_inv (mem_allIdx.mp hmem)
      have hbe1 : bEntry (maxIdx3 (view3 (logSoftmax2 dists.neg) C Q)) [C, Q] [i, j] =
          firstArgmax ((List.range C).map fun c => rowLogScore dists C (i * Q + j) c) := by
        rw [bEntry]
        simp only [hys, List.length_cons, List.length_nil, Nat.sub_self, List.drop]
        simp only [List.zipWith_cons_cons, List.zipWith_nil_right, if_neg hC1, if_neg hQ1]
        exact maxIdx3_entry C Q hC hQ dists hshape hi hj
      have hbe2 : bEntry ((targetInds C Q).squeeze) [C, Q] [i, j] = i := by
        rw [bEntry]
        simp only [hts, List.length_cons, List.length_nil, Nat.sub_self, List.drop]
        simp only [List.zipWith_cons_cons, List.zipWith_nil_right, if_neg hC1, if_neg hQ1]
        show (targetInds C Q).squeeze.data.getD
          (flatIndex (targetInds C Q).squeeze.shape [i, j]) 0 = i
        rw [hts]
        have hflat : flatIndex [C, Q] [i, j] = i * Q + j := by
          simp [flatIndex]
        rw [hflat]
        exact targetInds_data_getD C Q hi hj
      rw [hbe1, hbe2]
      rfl
    rw [hmap]
    have hsum := sum_allIdx_pair_range C Q hQ (fun i =>
      if firstArgmax ((List.range C).map fun j => rowLogScore dists C i j) = i / Q
      then (1 : ℝ) else 0)
    rw [← hsum]
    have hmap2 : (allIdx [C, Q]).map (fun idx =>
        if firstArgmax ((List.range C).map fun j =>
            rowLogScore dists C ((idx.headD 0) * Q + idx.getD 1 0) j) = idx.headD 0
        then (1 : ℝ) else 0) =
        (allIdx [C, Q]).map (fun idx =>
          if firstArgmax ((List.range C).map fun j =>
              rowLogScore dists C ((idx.headD 0) * Q + idx.getD 1 0) j) =
            ((idx.headD 0) * Q + idx.getD 1 0) / Q
          then (1 : ℝ) else 0) := by
      apply List.map_congr_left
      intro idx hmem
      obtain ⟨i, j, rfl, hi, hj⟩ := forall2_pair_inv (mem_allIdx.mp hmem)
      show (if _ = i then (1 : ℝ) else 0) = (if _ = (i * Q + j) / Q then (1 : ℝ) else 0)
      rw [mul_add_div_self i j Q (by omega) hj]
    rw [hmap2]
    have hp : List.prod [C, Q] = C * Q := by simp
    rw [hp]
    push_cast
    ring

/-! ### Claims about prototypical_loss -/

theorem euclid_ok_entry (C Q d : ℕ) (prototypes query_samples : Tens ℝ)
    (hX : query_samples.shape = [C * Q, d]) (hP : prototypes.shape = [C, d]) :
    ∀ i j, i < C * Q → j < C →
      (tensorOf [query_samples.size 0, prototypes.size 0] fun idx =>
        match idx with
        | [i2, j2] => ((List.range (query_samples.size 1)).map fun k =>
            (query_samples.entry [i2, k] - prototypes.entry [j2, k]) ^ 2).sum
        | _ => 0).entry [i, j] = sqDist query_samples prototypes d i j := by
  intro i j hi hj
  have hx0 : query_samples.size 0 = C * Q := by rw [Tens.size, hX]; rfl
  have hx1 : query_samples.size 1 = d := by rw [Tens.size, hX]; rfl
  have hp0 : prototypes.size 0 = C := by rw [Tens.size, hP]; rfl
  have hval : List.Forall₂ (· < ·) [i, j] [query_samples.size 0, prototypes.size 0] := by
    rw [hx0, hp0]
    exact forall2_pair hi hj
  rw [tensorOf_entry _ hval]
  show ((List.range (query_samples.size 1)).map fun k =>
    (query_samples.entry [i, k] - prototypes.entry [j, k]) ^ 2).sum = _
  rw [hx1, sqDist]

theorem euclid_ok_rowLogScore (C Q d : ℕ) (prototypes query_samples : Tens ℝ)
    (hX : query_samples.shape = [C * Q, d]) (hP : prototypes.shape = [C, d]) :
    ∀ i j, i < C * Q → j < C →
      rowLogScore (tensorOf [query_samples.size 0, prototypes.size 0] fun idx =>
        match idx with
        | [i2, j2] => ((List.range (query_samples.size 1)).map fun k =>
            (query_samples.entry [i2, k] - prototypes.entry [j2, k]) ^ 2).sum
        | _ => 0) C i j = logProb query_samples prototypes d C i j := by
  intro i j hi hj
  rw [rowLogScore, logProb, euclid_ok_entry C Q d prototypes query_samples hX hP i j hi hj]
  congr 2
  apply congrArg List.sum
  apply List.map_congr_left
  intro k hk
  rw [euclid_ok_entry C Q d prototypes query_samples hX hP i k hi (List.mem_range.mp hk)]

/-- C1: for C classes, Q queries per class, a C x d prototype matrix and a
(C*Q) x d query matrix grouped by class, the first component returned by
prototypical_loss is the negative mean over all C*Q queries of the log-softmax
(over the class axis, of negated squared euclidean distances to the
prototypes) evaluated at the true class i / Q of query i. -/
theorem prototypical_loss_fst_neg_mean_log_softmax
    (C Q d : ℕ) (prototypes query_samples : Tens ℝ) (hC : 1 ≤ C) (hQ : 1 ≤ Q)
    (hX : query_samples.shape = [C * Q, d]) (hP : prototypes.shape = [C, d]) :
    ∃ acc, prototypical_loss () C Q prototypes query_samples =
      .ok (-(((List.range (C * Q)).map fun i =>
          logProb query_samples prototypes d C i (i / Q)).sum) / (C * Q : ℝ), acc) := by
  have hx0 : query_samples.size 0 = C * Q := by rw [Tens.size, hX]; rfl
  have hx1 : query_samples.size 1 = d := by rw [Tens.size, hX]; rfl
  have hp0 : prototypes.size 0 = C := by rw [Tens.size, hP]; rfl
  have hp1 : prototypes.size 1 = d := by rw [Tens.size, hP]; rfl
  have hd : query_samples.size 1 = prototypes.size 1 := by rw [hx1, hp1]
  refine ⟨(lossAccFromDists () C Q (tensorOf [query_samples.size 0, prototypes.size 0] fun idx =>
    match idx with
    | [i2, j2] => ((List.range (query_samples.size 1)).map fun k =>
        (query_samples.entry [i2, k] - prototypes.entry [j2, k]) ^ 2).sum
    | _ => 0)).2, ?_⟩
  rw [prototypical_loss, euclidean_dist, if_pos hd]
  show Except.ok _ = Except.ok _
  congr 1
  have hshape2 : (tensorOf [query_samples.size 0, prototypes.size 0] fun idx =>
      match idx with
      | [i2, j2] => ((List.range (query_samples.size 1)).map fun k =>
          (query_samples.entry [i2, k] - prototypes.entry [j2, k]) ^ 2).sum
      | _ => 0 : Tens ℝ).shape = [C * Q, C] := by
    rw [tensorOf_shape, hx0, hp0]
  have hfst := lossAcc_fst C Q hC hQ _ hshape2
  have hsum : ((List.range (C * Q)).map fun i =>
      rowLogScore (tensorOf [query_samples.size 0, prototypes.size 0] fun idx =>
        match idx with
        | [i2, j2] => ((List.range (query_samples.size 1)).map fun k =>
            (query_samples.entry [i2, k] - prototypes.entry [j2, k]) ^ 2).sum
        | _ => 0) C i (i / Q)).sum =
      ((List.range (C * Q)).map fun i =>
        logProb query_samples prototypes d C i (i / Q)).sum := by
    apply congrArg List.sum
    apply List.map_congr_left
    intro i hi
    have hi2 : i < C * Q := List.mem_range.mp hi
    have hdiv : i / Q < C := by
      rw [Nat.div_lt_iff_lt_mul (by omega : 0 < Q)]
      omega
    exact euclid_ok_rowLogScore C Q d prototypes query_samples hX hP i (i / Q) hi2 hdiv
  rw [hsum] at hfst
  rw [← hfst]

/-- C2 (amended): whenever Q >= 2 or C = 1, the second component returned by
prototypical_loss is the fraction of the C*Q queries whose arg-max class under
the per-query log-probabilities equals the true class i / Q; when Q = 1 and
C >= 2 the squeeze/broadcast in the accuracy computation instead compares the
C predictions against all C targets pairwise and the value degenerates. -/
theorem prototypical_loss_snd_accuracy_fraction
    (C Q d : ℕ) (prototypes query_samples : Tens ℝ) (hC : 1 ≤ C) (hQ : 1 ≤ Q)
    (hQC : 2 ≤ Q ∨ C = 1)
    (hX : query_samples.shape = [C * Q, d]) (hP : prototypes.shape = [C, d]) :
    ∃ loss, prototypical_loss () C Q prototypes query_samples =
      .ok (loss,
        (((List.range (C * Q)).map fun i =>
          if firstArgmax ((List.range C).map fun j =>
              logProb query_samples prototypes d C i j) = i / Q
          then (1 : ℝ) else 0).sum) / (C * Q : ℝ)) := by
  have hx0 : query_samples.size 0 = C * Q := by rw [Tens.size, hX]; rfl
  have hx1 : query_samples.size 1 = d := by rw [Tens.size, hX]; rfl
  have hp0 : prototypes.size 0 = C := by rw [Tens.size, hP]; rfl
  have hp1 : prototypes.size 1 = d := by rw [Tens.size, hP]; rfl
  have hd : query_samples.size 1 = prototypes.size 1 := by rw [hx1, hp1]
  refine ⟨(lossAccFromDists () C Q (tensorOf [query_samples.size 0, prototypes.size 0] fun idx =>
    match idx with
    | [i2, j2] => ((List.range (query_samples.size 1)).map fun k =>
        (query_samples.entry [i2, k] - prototypes.entry [j2, k]) ^ 2).sum
    | _ => 0)).1, ?_⟩
  rw [prototypical_loss, euclidean_dist, if_pos hd]
  show Except.ok _ = Except.ok _
  congr 1
  have hshape2 : (tensorOf [query_samples.size 0, prototypes.size 0] fun idx =>
      match idx with
      | [i2, j2] => ((List.range (query_samples.size 1)).map fun k =>
          (query_samples.entry [i2, k] - prototypes.entry [j2, k]) ^ 2).sum
      | _ => 0 : Tens ℝ).shape = [C * Q, C] := by
    rw [tensorOf_shape, hx0, hp0]
  have hsnd := lossAcc_snd C Q hC hQ hQC _ hshape2
  have hsum : ((List.range (C * Q)).map fun i =>
      if firstArgmax ((List.range C).map fun j =>
          rowLogScore (tensorOf [query_samples.size 0, prototypes.size 0] fun idx =>
            match idx with
            | [i2, j2] => ((List.range (query_samples.size 1)).map fun k =>
                (query_samples.entry [i2, k] - prototypes.entry [j2, k]) ^ 2).sum
            | _ => 0) C i j) = i / Q
      then (1 : ℝ) else 0).sum =
      ((List.range (C * Q)).map fun i =>
        if firstArgmax ((List.range C).map fun j =>
            logProb query_samples prototypes d C i j) = i / Q
        then (1 : ℝ) else 0).sum := by
    apply congrArg List.sum
    apply List.map_congr_left
    intro i hi
    have hi2 : i < C * Q := List.mem_range.mp hi
    have hrows : ((List.range C).map fun j =>
        rowLogScore (tensorOf [query_samples.size 0, prototypes.size 0] fun idx =>
          match idx with
          | [i2, j2] => ((List.range (query_samples.size 1)).map fun k =>
              (query_samples.entry [i2, k] - prototypes.entry [j2, k]) ^ 2).sum
          | _ => 0) C i j) =
        ((List.range C).map fun j => logProb query_samples prototypes d C i j) := by
      apply List.map_congr_left
      intro j hj
      exact euclid_ok_rowLogScore C Q d prototypes query_samples hX hP i j hi2
        (List.mem_range.mp hj)
    rw [hrows]
  rw [hsum] at hsnd
  rw [← hsnd]

/-! ### Concrete evaluation at the spec's 2-class, 1-query example -/

theorem euclid_eval_example : euclidean_dist queryEx protoEx = Except.ok distsEx := by
  rw [euclidean_dist, if_pos (show queryEx.size 1 = protoEx.size 1 from rfl)]
  congr 1
  rw [show ([queryEx.size 0, protoEx.size 0] : List ℕ) = [2, 2] from rfl]
  rw [tensorOf]
  have ha : allIdx [2, 2] = [[0, 0], [0, 1], [1, 0], [1, 1]] := by decide
  rw [ha]
  simp only [List.map_cons, List.map_nil]
  rw [distsEx]
  congr 1
  norm_num [Tens.entry, Tens.size, flatIndex, queryEx, protoEx, List.range_succ]

theorem rowLogScore_eval_00 :
    rowLogScore distsEx 2 0 0 = -Real.log (1 + Real.exp (-200)) := by
  rw [rowLogScore]
  have hr2 : List.range 2 = [0, 1] := by decide
  rw [hr2]
  simp only [List.map_cons, List.map_nil, List.sum_cons, List.sum_nil, add_zero]
  have e0 : distsEx.entry [0, 0] = 0 := rfl
  have e1 : distsEx.entry [0, 1] = 200 := rfl
  rw [e0, e1]
  norm_num

theorem rowLogScore_eval_01 :
    rowLogScore distsEx 2 0 1 = -200 - Real.log (1 + Real.exp (-200)) := by
  rw [rowLogScore]
  have hr2 : List.range 2 = [0, 1] := by decide
  rw [hr2]
  simp only [List.map_cons, List.map_nil, List.sum_cons, List.sum_nil, add_zero]
  have e0 : distsEx.entry [0, 0] = 0 := rfl
  have e1 : distsEx.entry [0, 1] = 200 := rfl
  rw [e0, e1]
  norm_num

theorem rowLogScore_eval_10 :
    rowLogScore distsEx 2 1 0 = -200 - Real.log (Real.exp (-200) + 1) := by
  rw [rowLogScore]
  have hr2 : List.range 2 = [0, 1] := by decide
  rw [hr2]
  simp only [List.map_cons, List.map_nil, List.sum_cons, List.sum_nil, add_zero]
  have e0 : distsEx.entry [1, 0] = 200 := rfl
  have e1 : distsEx.entry [1, 1] = 0 := rfl
  rw [e0, e1]
  norm_num

theorem rowLogScore_eval_11 :
    rowLogScore distsEx 2 1 1 = -Real.log (Real.exp (-200) + 1) := by
  rw [rowLogScore]
  have hr2 : List.range 2 = [0, 1] := by decide
  rw [hr2]
  simp only [List.map_cons, List.map_nil, List.sum_cons, List.sum_nil, add_zero]
  have e0 : distsEx.entry [1, 0] = 200 := rfl
  have e1 : distsEx.entry [1, 1] = 0 := rfl
  rw [e0, e1]
  norm_num

theorem lossAcc_fst_eval_example :
    (lossAccFromDists () 2 1 distsEx).1 = Real.log (1 + Real.exp (-200)) := by
  have h1 := lossAcc_fst 2 1 (by norm_num) (by norm_num) distsEx rfl
  rw [h1]
  have hr2 : List.range (2 * 1) = [0, 1] := by decide
  rw [hr2]
  simp only [List.map_cons, List.map_nil, List.sum_cons, List.sum_nil, add_zero]
  norm_num
  rw [rowLogScore_eval_00, rowLogScore_eval_11]
  rw [show Real.log (Real.exp (-200) + 1) = Real.log (1 + Real.exp (-200)) from
    congrArg Real.log (add_comm _ _)]
  ring

theorem maxIdx_eval_row0 :
    (maxIdx3 (view3 (logSoftmax2 distsEx.neg) 2 1)).entry [0, 0] = 0 := by
  rw [maxIdx3_entry 2 1 (by norm_num) (by norm_num) distsEx rfl (by norm_num) (by norm_num)]
  have hr2 : List.range 2 = [0, 1] := by decide
  rw [hr2]
  simp only [List.map_cons, List.map_nil]
  rw [show (0 * 1 + 0 : ℕ) = 0 from rfl]
  rw [rowLogScore_eval_00, rowLogScore_eval_01]
  show (if -Real.log (1 + Real.exp (-200)) < maxVal [-200 - Real.log (1 + Real.exp (-200))]
    then firstArgmax [-200 - Real.log (1 + Real.exp (-200))] + 1 else 0) = 0
  have hlt : ¬ (-Real.log (1 + Real.exp (-200)) <
      maxVal [-200 - Real.log (1 + Real.exp (-200))]) := by
    rw [show maxVal [-200 - Real.log (1 + Real.exp (-200))] =
      -200 - Real.log (1 + Real.exp (-200)) from rfl]
    intro h
    linarith
  rw [if_neg hlt]

theorem maxIdx_eval_row1 :
    (maxIdx3 (view3 (logSoftmax2 distsEx.neg) 2 1)).entry [1, 0] = 1 := by
  rw [maxIdx3_entry 2 1 (by norm_num) (by norm_num) distsEx rfl (by norm_num) (by norm_num)]
  have hr2 : List.range 2 = [0, 1] := by decide
  rw [hr2]
  simp only [List.map_cons, List.map_nil]
  rw [show (1 * 1 + 0 : ℕ) = 1 from rfl]
  rw [rowLogScore_eval_10, rowLogScore_eval_11]
  show (if -200 - Real.log (Real.exp (-200) + 1) < maxVal [-Real.log (Real.exp (-200) + 1)]
    then firstArgmax [-Real.log (Real.exp (-200) + 1)] + 1 else 0) = 1
  have hlt : -200 - Real.log (Real.exp (-200) + 1) <
      maxVal [-Real.log (Real.exp (-200) + 1)] := by
    rw [show maxVal [-Real.log (Real.exp (-200) + 1)] =
      -Real.log (Real.exp (-200) + 1) from rfl]
    linarith
  rw [if_pos hlt, firstArgmax_single]

theorem lossAcc_snd_eval_example : (lossAccFromDists () 2 1 distsEx).2 = 1 / 2 := by
  show Tens.mean (eqFloat (maxIdx3 (view3 (logSoftmax2 distsEx.neg) 2 1))
    (targetInds 2 1).squeeze) = 1 / 2
  have hys : (maxIdx3 (view3 (logSoftmax2 distsEx.neg) 2 1)).shape = [2, 1] := rfl
  have hts : (targetInds 2 1).squeeze.shape = [2] := by decide
  have hbs : bShape [2, 1] [2] = [2, 2] := by decide
  rw [eqFloat]
  simp only [hys, hts, hbs]
  rw [Tens.mean, tensorOf_data, tensorOf_shape]
  have ha : allIdx [2, 2] = [[0, 0], [0, 1], [1, 0], [1, 1]] := by decide
  rw [ha]
  simp only [List.map_cons, List.map_nil, List.sum_cons, List.sum_nil, add_zero]
  have hyb : ∀ i j : ℕ, bEntry (maxIdx3 (view3 (logSoftmax2 distsEx.neg) 2 1)) [2, 2] [i, j] =
      (maxIdx3 (view3 (logSoftmax2 distsEx.neg) 2 1)).entry [i, 0] := by
    intro i j
    rw [bEntry]
    simp only [hys, List.length_cons, List.length_nil, Nat.sub_self, List.drop,
      List.zipWith_cons_cons, List.zipWith_nil_right]
    norm_num
  have htb : ∀ i j : ℕ, j < 2 → bEntry ((targetInds 2 1).squeeze) [2, 2] [i, j] = j := by
    intro i j hj
    rw [bEntry]
    show (targetInds 2 1).squeeze.data.getD
      (flatIndex (targetInds 2 1).squeeze.shape
        (List.zipWith _ (targetInds 2 1).squeeze.shape ([i, j].drop (2 - 1)))) 0 = j
    simp only [hts, List.drop, List.zipWith_cons_cons, List.zipWith_nil_right]
    norm_num
    show (targetInds 2 1).data[flatIndex [2] [j]]?.getD 0 = j
    have hgd := targetInds_data_getD 2 1 hj Nat.one_pos
    rw [List.getD_eq_getElem?_getD] at hgd
    have hf : flatIndex [2] [j] = j * 1 + 0 := by
      simp [flatIndex]
    rw [hf]
    exact hgd
  rw [hyb 0 0, hyb 0 1, hyb 1 0, hyb 1 1, htb 0 0 (by norm_num), htb 0 1 (by norm_num),
    htb 1 0 (by norm_num), htb 1 1 (by norm_num), maxIdx_eval_row0, maxIdx_eval_row1]
  norm_num

theorem protoLoss_eval_example :
    prototypical_loss () 2 1 protoEx queryEx =
      .ok (Real.log (1 + Real.exp (-200)), 1 / 2) := by
  rw [prototypical_loss, euclid_eval_example]
  show Except.ok _ = Except.ok _
  congr 1
  rw [← lossAcc_fst_eval_example, ← lossAcc_snd_eval_example]

theorem sqDist_eval_00 : sqDist queryEx protoEx 2 0 0 = 0 := by
  rw [sqDist]
  norm_num [Tens.entry, flatIndex, queryEx, protoEx, List.range_succ]

theorem sqDist_eval_01 : sqDist queryEx protoEx 2 0 1 = 200 := by
  rw [sqDist]
  norm_num [Tens.entry, flatIndex, queryEx, protoEx, List.range_succ]

theorem sqDist_eval_10 : sqDist queryEx protoEx 2 1 0 = 200 := by
  rw [sqDist]
  norm_num [Tens.entry, flatIndex, queryEx, protoEx, List.range_succ]

theorem sqDist_eval_11 : sqDist queryEx protoEx 2 1 1 = 0 := by
  rw [sqDist]
  norm_num [Tens.entry, flatIndex, queryEx, protoEx, List.range_succ]

theorem logProb_eval_00 :
    logProb queryEx protoEx 2 2 0 0 = -Real.log (1 + Real.exp (-200)) := by
  rw [logProb]
  have hr2 : List.range 2 = [0, 1] := by decide
  rw [hr2]
  simp only [List.map_cons, List.map_nil, List.sum_cons, List.sum_nil, add_zero]
  rw [sqDist_eval_00, sqDist_eval_01]
  norm_num

theorem logProb_eval_01 :
    logProb queryEx protoEx 2 2 0 1 = -200 - Real.log (1 + Real.exp (-200)) := by
  rw [logProb]
  have hr2 : List.range 2 = [0, 1] := by decide
  rw [hr2]
  simp only [List.map_cons, List.map_nil, List.sum_cons, List.sum_nil, add_zero]
  rw [sqDist_eval_00, sqDist_eval_01]
  norm_num

theorem logProb_eval_10 :
    logProb queryEx protoEx 2 2 1 0 = -200 - Real.log (Real.exp (-200) + 1) := by
  rw [logProb]
  have hr2 : List.range 2 = [0, 1] := by decide
  rw [hr2]
  simp only [List.map_cons, List.map_nil, List.sum_cons, List.sum_nil, add_zero]
  rw [sqDist_eval_10, sqDist_eval_11]
  norm_num

theorem logProb_eval_11 :
    logProb queryEx protoEx 2 2 1 1 = -Real.log (Real.exp (-200) + 1) := by
  rw [logProb]
  have hr2 : List.range 2 = [0, 1] := by decide
  rw [hr2]
  simp only [List.map_cons, List.map_nil, List.sum_cons, List.sum_nil, add_zero]
  rw [sqDist_eval_10, sqDist_eval_11]
  norm_num

/-- C3 (evaluation at the spec's test input): with prototypes [[0,0],[10,10]]
and queries identical to them, prototypical_loss returns loss
log(1 + exp(-200)), which is positive but below 1/2^100 (so "approximately 0"
holds), and accuracy 1/2 -- not the 1.0 the spec expects: with one query per
class, target_inds.squeeze() has shape (2,) while y_hat has shape (2,1), so
eq broadcasts to a 2x2 matrix whose mean is 1/2. -/
theorem prototypical_loss_match_example_eval :
    prototypical_loss () 2 1 protoEx queryEx =
      .ok (Real.log (1 + Real.exp (-200)), 1 / 2) ∧
    0 < Real.log (1 + Real.exp (-200)) ∧
    Real.log (1 + Real.exp (-200)) < 1 / 2 ^ 100 ∧
    (1 / 2 : ℝ) ≠ 1 := by
  refine ⟨protoLoss_eval_example, ?_, ?_, by norm_num⟩
  · exact Real.log_pos (by linarith [Real.exp_pos (-200 : ℝ)])
  · have ht : Real.exp (-(200 : ℝ)) < 1 / 2 ^ 100 := by
      have h2 : (2 : ℝ) < Real.exp 2 := by
        have := Real.add_one_le_exp (2 : ℝ)
        linarith
      have hp : (2 : ℝ) ^ (100 : ℕ) < (Real.exp 2) ^ (100 : ℕ) :=
        pow_lt_pow_left₀ h2 (by norm_num) (by norm_num)
      have he : (Real.exp 2) ^ (100 : ℕ) = Real.exp 200 := by
        rw [← Real.exp_nat_mul]
        norm_num
      rw [Real.exp_neg]
      rw [he] at hp
      have hpos : (0 : ℝ) < 2 ^ (100 : ℕ) := by positivity
      calc (Real.exp 200)⁻¹ = 1 / Real.exp 200 := by rw [one_div]
        _ < 1 / 2 ^ (100 : ℕ) := one_div_lt_one_div_of_lt hpos hp
    have hlog : Real.log (1 + Real.exp (-200)) ≤ Real.exp (-200) := by
      have h := Real.log_le_sub_one_of_pos
        (show (0 : ℝ) < 1 + Real.exp (-200) by positivity)
      linarith
    linarith

/-- Counterexample to C2 as stated: at C=2 classes and Q=1 query per class
(prototypes [[0,0],[10,10]], queries identical), the code returns accuracy 1/2
while the fraction of queries whose arg-max class equals the true class is 1:
the squeeze/broadcast described in the amended claim makes the two differ. -/
theorem prototypical_loss_snd_accuracy_counterexample :
    prototypical_loss () 2 1 protoEx queryEx =
      .ok (Real.log (1 + Real.exp (-200)), 1 / 2) ∧
    (((List.range (2 * 1)).map fun i =>
      if firstArgmax ((List.range 2).map fun j => logProb queryEx protoEx 2 2 i j) = i / 1
      then (1 : ℝ) else 0).sum) / (2 * 1 : ℝ) = 1 ∧
    (1 / 2 : ℝ) ≠ 1 := by
  refine ⟨protoLoss_eval_example, ?_, by norm_num⟩
  have hr21 : List.range (2 * 1) = [0, 1] := by decide
  rw [hr21]
  simp only [List.map_cons, List.map_nil, List.sum_cons, List.sum_nil, add_zero]
  have harg0 : firstArgmax [logProb queryEx protoEx 2 2 0 0,
      logProb queryEx protoEx 2 2 0 1] = 0 := by
    rw [logProb_eval_00, logProb_eval_01]
    show (if -Real.log (1 + Real.exp (-200)) < maxVal [-200 - Real.log (1 + Real.exp (-200))]
      then firstArgmax [-200 - Real.log (1 + Real.exp (-200))] + 1 else 0) = 0
    have hlt : ¬ (-Real.log (1 + Real.exp (-200)) <
        maxVal [-200 - Real.log (1 + Real.exp (-200))]) := by
      rw [show maxVal [-200 - Real.log (1 + Real.exp (-200))] =
        -200 - Real.log (1 + Real.exp (-200)) from rfl]
      intro h
      linarith
    rw [if_neg hlt]
  have harg1 : firstArgmax [logProb queryEx protoEx 2 2 1 0,
      logProb queryEx protoEx 2 2 1 1] = 1 := by
    rw [logProb_eval_10, logProb_eval_11]
    show (if -200 - Real.log (Real.exp (-200) + 1) < maxVal [-Real.log (Real.exp (-200) + 1)]
      then firstArgmax [-Real.log (Real.exp (-200) + 1)] + 1 else 0) = 1
    have hlt : -200 - Real.log (Real.exp (-200) + 1) <
        maxVal [-Real.log (Real.exp (-200) + 1)] := by
      rw [show maxVal [-Real.log (Real.exp (-200) + 1)] =
        -Real.log (Real.exp (-200) + 1) from rfl]
      linarith
    rw [if_pos hlt, firstArgmax_single]
  norm_num [harg0, harg1]

/-- Witness for C1 at the minimal instance C = Q = d = 1 with a zero prototype
and a zero query: the loss formula evaluates to 0. -/
theorem prototypical_loss_fst_neg_mean_log_softmax_witness :
    ∃ acc, prototypical_loss () 1 1 zeroEx zeroEx = .ok (0, acc) := by
  obtain ⟨acc, h⟩ := prototypical_loss_fst_neg_mean_log_softmax 1 1 1 zeroEx zeroEx
    (by norm_num) (by norm_num) rfl rfl
  refine ⟨acc, ?_⟩
  rw [h]
  simp only [Except.ok.injEq, Prod.mk.injEq]
  refine ⟨?_, trivial⟩
  have hr1 : List.range (1 * 1) = [0] := by decide
  rw [hr1]
  simp only [List.map_cons, List.map_nil, List.sum_cons, List.sum_nil, add_zero]
  have hlp : logProb zeroEx zeroEx 1 1 0 0 = 0 := by
    rw [logProb]
    have hr1b : List.range 1 = [0] := by decide
    rw [hr1b]
    simp only [List.map_cons, List.map_nil, List.sum_cons, List.sum_nil, add_zero]
    have hsq : sqDist zeroEx zeroEx 1 0 0 = 0 := by
      rw [sqDist]
      norm_num [Tens.entry, flatIndex, zeroEx, List.range_succ]
    rw [hsq]
    norm_num
  norm_num [hlp]

/-- Witness for C2's amended statement at the minimal instance C = Q = d = 1:
the single query is classified correctly and the accuracy formula gives 1. -/
theorem prototypical_loss_snd_accuracy_fraction_witness :
    ∃ loss, prototypical_loss () 1 1 zeroEx zeroEx = .ok (loss, 1) := by
  obtain ⟨loss, h⟩ := prototypical_loss_snd_accuracy_fraction 1 1 1 zeroEx zeroEx
    (by norm_num) (by norm_num) (Or.inr rfl) rfl rfl
  refine ⟨loss, ?_⟩
  rw [h]
  simp only [Except.ok.injEq, Prod.mk.injEq]
  refine ⟨trivial, ?_⟩
  have hr1 : List.range (1 * 1) = [0] := by decide
  rw [hr1]
  simp only [List.map_cons, List.map_nil, List.sum_cons, List.sum_nil, add_zero]
  have harg : firstArgmax [logProb zeroEx zeroEx 1 1 0 0] = 0 := firstArgmax_single _
  norm_num [harg]
